import Mathlib

/-!
# Verification of the trivia quiz game

Shallow embedding of `trivia_game.py` and `trivia_game_helpers.py`.

Python dictionaries are modelled as insertion-ordered association lists
(`dictSet` overwrites an existing key in place and appends a fresh key at
the end, exactly like CPython dict assignment).  Console input is
modelled as a stream `stdin : Nat → String` giving the successive lines
read by `input()` (for the entry-flow loops, as a finite list of lines).
`html.unescape` is kept abstract (a function parameter `u`): the scoring
code only applies it to the payload fields, so every theorem below holds
for an arbitrary unescape function.  Python's `str.upper` is modelled by
`pyUpper` (character-wise `Char.toUpper`), and `int(...)` by `pyInt?`
(strip surrounding whitespace, optional sign, decimal digits; Python's
underscore separators and non-ASCII digits are not modelled, no claim
exercises them).  Console printing and the `random.shuffle` of the
choice list only affect the prompt text shown to players, never the
returned score dictionary, so they are not part of the embedding.
-/

namespace Trivia

/-- Lookup in a Python-dict model (first, hence unique, matching key). -/
def dictGet {α : Type} : List (String × α) → String → Option α
  | [], _ => none
  | (k, v) :: rest, key => if k = key then some v else dictGet rest key

/-- `d[k] = v` on a Python-dict model: overwrite in place, append if fresh. -/
def dictSet {α : Type} : List (String × α) → String → α → List (String × α)
  | [], key, v => [(key, v)]
  | (k, w) :: rest, key, v =>
    if k = key then (key, v) :: rest else (k, w) :: dictSet rest key v

/-- Lookup with a default value. -/
def dictGetD {α : Type} (d : List (String × α)) (key : String) (v₀ : α) : α :=
  (dictGet d key).getD v₀

/-- `list(d.keys())` on a Python-dict model. -/
def dictKeys {α : Type} (d : List (String × α)) : List String :=
  d.map Prod.fst

/-- Model of Python `str.upper()` (ASCII case mapping, as `Char.toUpper`). -/
def pyUpper (s : String) : String :=
  List.asString (s.data.map Char.toUpper)

/-- Model of Python `str.strip()` with no argument: remove leading and
trailing whitespace.  (The source never calls `strip`; this definition
exists only to state the spec's "trimmed input" reading of the answer
comparison.) -/
def pyStrip (s : String) : String :=
  List.asString
    (((s.data.dropWhile Char.isWhitespace).reverse.dropWhile
      Char.isWhitespace).reverse)

/-- Numeric value of a decimal digit character. -/
def digitVal (c : Char) : Nat :=
  c.toNat - 48

/-- Horner evaluation of a digit string on top of accumulator `a`. -/
def parseFrom (a : Nat) (l : List Char) : Nat :=
  l.foldl (fun b c => 10 * b + digitVal c) a

/-- Decimal value of a string of digit characters. -/
def parseNat (s : String) : Nat :=
  parseFrom 0 s.data

/-- Value of a nonempty all-digit character list, `none` otherwise. -/
def digitsVal? (l : List Char) : Option Nat :=
  if l = [] then none
  else if l.all Char.isDigit then some (parseFrom 0 l) else none

/-- Model of Python `int(s)`: strip surrounding whitespace, read an
optional sign followed by at least one decimal digit; `none` models the
`ValueError` raised on any other input. -/
def pyInt? (s : String) : Option Int :=
  match ((s.data.dropWhile Char.isWhitespace).reverse.dropWhile
      Char.isWhitespace).reverse with
  | '-' :: rest => (digitsVal? rest).map (fun n => -(n : Int))
  | '+' :: rest => (digitsVal? rest).map (fun n => (n : Int))
  | t => (digitsVal? t).map (fun n => (n : Int))

/-- One record of `response.json()["results"]` (fields still HTML-escaped,
as delivered by the API). -/
structure QuestionItem where
  question : String
  correct_answer : String
  incorrect_answers : List String
deriving DecidableEq

/-- Per-player score dictionary: stringified 1-based question number ↦ point. -/
abbrev Inner := List (String × Nat)

/-- The `score` dictionary built by `quiz`: player name ↦ per-question points. -/
abbrev ScoreTable := List (String × Inner)

/-- `quiz`, first loop: `score = {}` then `score[player] = {}` for each player. -/
def quizInit (player_list : List String) : ScoreTable :=
  player_list.foldl (fun sc p => dictSet sc p []) []

/-- `quiz`, inner loop over one question: each player in order answers one
line from stdin (line number `idx` counts the `input()` calls made inside
`quiz`), the answer is compared upper-cased against the upper-cased
unescaped correct answer, and `score[player][str(question_number)]` is set
to 1 or 0.  Returns the updated score and the next stdin line number. -/
def askPlayers (correct_answer : String) (stdin : Nat → String) :
    List String → Nat → Nat → ScoreTable → ScoreTable × Nat
  | [], _, idx, sc => (sc, idx)
  | player :: rest, qn, idx, sc =>
    let answer := stdin idx
    let player_points :=
      if pyUpper answer = pyUpper correct_answer then 1 else 0
    let sc' :=
      dictSet sc player
        (dictSet (dictGetD sc player []) (Nat.repr qn) player_points)
    askPlayers correct_answer stdin rest qn (idx + 1) sc'

/-- `quiz`, outer loop over `response.json()["results"]`: unescape the
payload fields, ask every player, move to the next question number.
Building the shuffled choice list and the prompt string, and printing the
correct answer, only produce console output and are omitted. -/
def quizLoop (u : String → String) (stdin : Nat → String) :
    List QuestionItem → List String → Nat → Nat → ScoreTable → ScoreTable
  | [], _, _, _, sc => sc
  | item :: rest, player_list, question_number, idx, sc =>
    let correct_answer := u item.correct_answer
    let r := askPlayers correct_answer stdin player_list question_number idx sc
    quizLoop u stdin rest player_list (question_number + 1) r.2 r.1

/-- `quiz(response, player_list)`: initialise the score dictionary, then
run the nested question × player loop starting at question number 1. -/
def quiz (u : String → String) (stdin : Nat → String)
    (results : List QuestionItem) (player_list : List String) : ScoreTable :=
  quizLoop u stdin results player_list 1 0 (quizInit player_list)

/-- The canonical inner key list `["1", ..., "n"]` produced by `quiz`. -/
def qKeys (n : Nat) : List String :=
  (List.range n).map (fun t => Nat.repr (t + 1))

/-- Every recorded point of an inner score dictionary is 0 or 1. -/
def vals01 (d : Inner) : Prop :=
  ∀ kv ∈ d, kv.2 = 0 ∨ kv.2 = 1

/-- `sum(scores.values())` for one player. -/
def innerSum (d : Inner) : Nat :=
  (d.map Prod.snd).sum

/-- Outcome of `calculate_winner`: which of the two final print branches
runs, and with which data. -/
inductive WinnerOutcome where
  | noPoints : WinnerOutcome
  | winners : Int → List String → WinnerOutcome
deriving DecidableEq

/-- `calculate_winner`, main loop: fold over the score dictionary tracking
`highest_score` (initialised to -1, hence `Int`) and
`persons_with_highest_score`. -/
def winnerFold (score : ScoreTable) : Int × List String :=
  score.foldl
    (fun acc pr =>
      let total_score : Int := (innerSum pr.2 : Int)
      if total_score > acc.1 then (total_score, [pr.1])
      else if total_score = acc.1 then (acc.1, acc.2 ++ [pr.1])
      else acc)
    (-1, [])

/-- `calculate_winner(score)`: run the loop, then branch on
`highest_score == 0`. -/
def calculate_winner (score : ScoreTable) : WinnerOutcome :=
  let r := winnerFold score
  if r.1 = 0 then WinnerOutcome.noPoints else WinnerOutcome.winners r.1 r.2

/-- The console lines printed by the final branch of `calculate_winner`. -/
def winnerOutput : WinnerOutcome → List String
  | WinnerOutcome.noPoints => ["Sorry, no points. Better luck next time!"]
  | WinnerOutcome.winners h ps =>
    ("Player(s) with the highest score (" ++ toString h ++ "):")
      :: ps ++ ["Congratulations!"]

/-- The maximum per-player total of a score table (0 for an empty table);
spec-side quantity used to state the winner claims. -/
def maxTotal (score : ScoreTable) : Nat :=
  (score.map (fun pr => innerSum pr.2)).foldl Nat.max 0

/-- `write_score_to_csv(score)` as the list of rows written to
`quiz_score.csv` (each cell the string `csv.writer` emits).  `none` models
the `StopIteration` raised by `next(iter(score.values()))` on an empty
dictionary, before the output file is even opened. -/
def write_score_to_csv (score : ScoreTable) : Option (List (List String)) :=
  match score with
  | [] => none
  | first :: _ =>
    let questions := dictKeys first.2
    let headers :=
      ["Name"] ++ questions.map (fun q_no => "Question " ++ q_no) ++ ["Total"]
    some (headers ::
      score.map (fun pr =>
        [pr.1] ++ pr.2.map (fun kv => Nat.repr kv.2)
          ++ [Nat.repr (innerSum pr.2)]))

/-- Modelled from the spec: the reading half of the round-trip property
("exporting then parsing the file reproduces the same per-player totals")
is not code of this repository.  Parse the written rows back: skip the
header, and read each data row as (first cell = player name, numeric value
of the last cell = total). -/
def csvParseTotals (rows : List (List String)) : List (String × Nat) :=
  rows.tail.map (fun row => (row.headD "", parseNat (row.getLastD "0")))

/-- Entry flow, question-count loop.  State `bound` is the value held by
the variable `no_questions`, `none` while it is still unassigned.  A
`ValueError` from `int(...)` is caught (the code prints and falls
through), after which the loop body reads `no_questions`: if it was never
assigned, Python raises `NameError` — modelled as an error result.
Running out of input lines models `EOFError` (not caught by the code
either). -/
def questionCountLoop : List String → Option Int → Except String Int
  | [], _ => Except.error "EOFError"
  | line :: rest, bound =>
    let bound' :=
      match pyInt? line with
      | some v => some v
      | none => bound
    match bound' with
    | none => Except.error "NameError"
    | some v =>
      if v ≤ 50 then Except.ok v else questionCountLoop rest (some v)

/-- Entry flow, player-name loop for one player: keep prompting until the
entered name is not already in `player_list`, then append it.  Returns the
updated player list and the remaining input lines (`none` models running
out of input). -/
def playerNamePrompt : List String → List String → Option (List String × List String)
  | [], _ => none
  | name :: rest, player_list =>
    if name ∈ player_list then playerNamePrompt rest player_list
    else some (player_list ++ [name], rest)

/-! ## Association-list dictionary lemmas -/

theorem dictGet_set_self {α : Type} (d : List (String × α)) (k : String) (v : α) :
    dictGet (dictSet d k v) k = some v := by
  induction d with
  | nil => simp [dictGet, dictSet]
  | cons kv rest ih =>
    obtain ⟨a, b⟩ := kv
    by_cases h : a = k
    · simp [dictGet, dictSet, h]
    · simp [dictGet, dictSet, h, ih]

theorem dictGet_set_ne {α : Type} (d : List (String × α)) {k key : String}
    (h : k ≠ key) (v : α) : dictGet (dictSet d k v) key = dictGet d key := by
  induction d with
  | nil => simp [dictGet, dictSet, h]
  | cons kv rest ih =>
    obtain ⟨a, b⟩ := kv
    by_cases ha : a = k
    · subst ha
      simp [dictGet, dictSet, h, Ne.symm h]
    · by_cases hkey : a = key
      · simp [dictGet, dictSet, ha, hkey, Ne.symm h]
      · simp [dictGet, dictSet, ha, hkey, ih]

theorem dictSet_set_self {α : Type} (d : List (String × α)) (k : String) (v w : α) :
    dictSet (dictSet d k v) k w = dictSet d k w := by
  induction d with
  | nil => simp [dictSet]
  | cons kv rest ih =>
    obtain ⟨a, b⟩ := kv
    by_cases h : a = k
    · simp [dictSet, h]
    · simp [dictSet, h, ih]

theorem dictKeys_set_of_notMem {α : Type} (d : List (String × α)) {k : String}
    (h : k ∉ dictKeys d) (v : α) : dictKeys (dictSet d k v) = dictKeys d ++ [k] := by
  induction d with
  | nil => simp [dictKeys, dictSet]
  | cons kv rest ih =>
    obtain ⟨a, b⟩ := kv
    rw [show dictKeys ((a, b) :: rest) = a :: dictKeys rest from rfl] at h
    simp only [List.mem_cons] at h
    push_neg at h
    have ha : a ≠ k := fun hak => h.1 hak.symm
    show dictKeys (if a = k then (k, v) :: rest else (a, b) :: dictSet rest k v)
      = (a :: dictKeys rest) ++ [k]
    rw [if_neg ha]
    show a :: dictKeys (dictSet rest k v) = (a :: dictKeys rest) ++ [k]
    rw [ih h.2]
    rfl

theorem vals01_set (d : Inner) (k : String) {v : Nat}
    (hd : vals01 d) (hv : v = 0 ∨ v = 1) : vals01 (dictSet d k v) := by
  induction d with
  | nil =>
    intro kv hkv
    simp [dictSet] at hkv
    simp [hkv, hv]
  | cons kw rest ih =>
    obtain ⟨a, b⟩ := kw
    have hb : b = 0 ∨ b = 1 := hd (a, b) (by simp)
    have hrest : vals01 rest := fun kv hkv => hd kv (by simp [hkv])
    intro kv hkv
    by_cases h : a = k
    · simp [dictSet, h] at hkv
      rcases hkv with hkv | hkv
      · simp [hkv, hv]
      · exact hrest kv hkv
    · simp [dictSet, h] at hkv
      rcases hkv with hkv | hkv
      · simp [hkv, hb]
      · exact ih hrest kv hkv

/-! ## Decimal representation round-trip -/

theorem parseFrom_cons (a : Nat) (c : Char) (l : List Char) :
    parseFrom a (c :: l) = parseFrom (10 * a + digitVal c) l := rfl

theorem digitVal_digitChar {m : Nat} (h : m < 10) :
    digitVal (Nat.digitChar m) = m := by
  interval_cases m <;> decide

theorem parseFrom_toDigitsCore :
    ∀ (fuel n : Nat) (ds : List Char), n < fuel →
      parseFrom 0 (Nat.toDigitsCore 10 fuel n ds) = parseFrom n ds := by
  intro fuel
  induction fuel with
  | zero => intro n ds h; omega
  | succ fuel ih =>
    intro n ds h
    simp only [Nat.toDigitsCore]
    by_cases h10 : n / 10 = 0
    · have hn : n < 10 := by omega
      simp only [h10, if_true, parseFrom_cons,
        digitVal_digitChar (Nat.mod_lt n (by norm_num))]
      have : 10 * 0 + n % 10 = n := by omega
      rw [this]
    · have hlt : n / 10 < fuel := by omega
      simp only [h10, if_false]
      rw [ih (n / 10) _ hlt, parseFrom_cons,
        digitVal_digitChar (Nat.mod_lt n (by norm_num))]
      have : 10 * (n / 10) + n % 10 = n := by omega
      rw [this]

theorem parseNat_repr (n : Nat) : parseNat (Nat.repr n) = n := by
  show parseFrom 0 (Nat.toDigitsCore 10 (n + 1) n []) = n
  rw [parseFrom_toDigitsCore _ _ _ (Nat.lt_succ_self n)]
  rfl

theorem repr_inj {m n : Nat} (h : Nat.repr m = Nat.repr n) : m = n := by
  have h2 := congrArg parseNat h
  rwa [parseNat_repr, parseNat_repr] at h2

/-! ## Quiz loop lemmas -/

theorem quizInit_go (players : List String) (sc : ScoreTable) (p : String) :
    dictGet (players.foldl (fun sc' q => dictSet sc' q []) sc) p =
      if p ∈ players then some [] else dictGet sc p := by
  induction players generalizing sc with
  | nil => simp
  | cons q rest ih =>
    simp only [List.foldl_cons]
    rw [ih]
    by_cases hp : p ∈ rest
    · simp [hp]
    · by_cases hq : q = p
      · subst hq
        simp [hp, dictGet_set_self]
      · have hmem : p ∉ q :: rest := by
          simp [List.mem_cons, hp]
          exact fun h => hq h.symm
        rw [if_neg hp, if_neg hmem, dictGet_set_ne _ hq]

theorem quizInit_get {players : List String} {p : String} (hp : p ∈ players) :
    dictGet (quizInit players) p = some [] := by
  show dictGet (players.foldl (fun sc' q => dictSet sc' q []) []) p = some []
  rw [quizInit_go, if_pos hp]

theorem askPlayers_snd (c : String) (s : Nat → String) :
    ∀ (ps : List String) (qn idx : Nat) (sc : ScoreTable),
      (askPlayers c s ps qn idx sc).2 = idx + ps.length := by
  intro ps
  induction ps with
  | nil => intro qn idx sc; rfl
  | cons q rest ih =>
    intro qn idx sc
    show (askPlayers c s rest qn (idx + 1) _).2 = idx + (q :: rest).length
    rw [ih]
    simp only [List.length_cons]
    omega

theorem askPlayers_get_notMem (c : String) (s : Nat → String) :
    ∀ (ps : List String) {p : String}, p ∉ ps → ∀ (qn idx : Nat) (sc : ScoreTable),
      dictGet (askPlayers c s ps qn idx sc).1 p = dictGet sc p := by
  intro ps
  induction ps with
  | nil => intro p _ qn idx sc; rfl
  | cons q rest ih =>
    intro p hp qn idx sc
    simp only [List.mem_cons] at hp
    push_neg at hp
    show dictGet (askPlayers c s rest qn (idx + 1)
      (dictSet sc q (dictSet (dictGetD sc q []) (Nat.repr qn)
        (if pyUpper (s idx) = pyUpper c then 1 else 0)))).1 p = dictGet sc p
    rw [ih hp.2, dictGet_set_ne _ (fun h => hp.1 h.symm)]

theorem askPlayers_get_mem (c : String) (s : Nat → String) :
    ∀ (ps : List String) {p : String}, p ∈ ps → ∀ (qn idx : Nat) (sc : ScoreTable),
      ∃ v, (v = 0 ∨ v = 1) ∧
        dictGet (askPlayers c s ps qn idx sc).1 p =
          some (dictSet (dictGetD sc p []) (Nat.repr qn) v) := by
  intro ps
  induction ps with
  | nil => intro p hp; simp at hp
  | cons q rest ih =>
    intro p hp qn idx sc
    set v0 : Nat := if pyUpper (s idx) = pyUpper c then 1 else 0 with hv0
    have hv0or : v0 = 0 ∨ v0 = 1 := by rw [hv0]; split <;> simp
    set sc' : ScoreTable :=
      dictSet sc q (dictSet (dictGetD sc q []) (Nat.repr qn) v0) with hsc'
    have hunfold :
        askPlayers c s (q :: rest) qn idx sc =
          askPlayers c s rest qn (idx + 1) sc' := rfl
    rw [hunfold]
    by_cases hpr : p ∈ rest
    · obtain ⟨v, hv, hget⟩ := ih hpr qn (idx + 1) sc'
      refine ⟨v, hv, ?_⟩
      rw [hget]
      by_cases hpq : q = p
      · subst hpq
        have h1 : dictGetD sc' q [] = dictSet (dictGetD sc q []) (Nat.repr qn) v0 := by
          simp only [dictGetD, hsc', dictGet_set_self, Option.getD_some]
        rw [h1, dictSet_set_self]
      · have h1 : dictGetD sc' p [] = dictGetD sc p [] := by
          simp only [dictGetD, hsc', dictGet_set_ne _ hpq]
        rw [h1]
    · have hpq : q = p := by
        rcases List.mem_cons.mp hp with h | h
        · exact h.symm
        · exact absurd h hpr
      subst hpq
      refine ⟨v0, hv0or, ?_⟩
      rw [askPlayers_get_notMem c s rest hpr, hsc', dictGet_set_self]

theorem askPlayers_get_nodup (c : String) (s : Nat → String) :
    ∀ (ps : List String), ps.Nodup →
      ∀ (j : Nat) (hj : j < ps.length) (qn idx : Nat) (sc : ScoreTable),
        dictGet (askPlayers c s ps qn idx sc).1 (ps.get ⟨j, hj⟩) =
          some (dictSet (dictGetD sc (ps.get ⟨j, hj⟩) []) (Nat.repr qn)
            (if pyUpper (s (idx + j)) = pyUpper c then 1 else 0)) := by
  intro ps
  induction ps with
  | nil => intro _ j hj; simp at hj
  | cons q rest ih =>
    intro hnd j hj qn idx sc
    have hqr : q ∉ rest := (List.nodup_cons.mp hnd).1
    have hndr : rest.Nodup := (List.nodup_cons.mp hnd).2
    set v0 : Nat := if pyUpper (s idx) = pyUpper c then 1 else 0 with hv0
    set sc' : ScoreTable :=
      dictSet sc q (dictSet (dictGetD sc q []) (Nat.repr qn) v0) with hsc'
    have hunfold :
        askPlayers c s (q :: rest) qn idx sc =
          askPlayers c s rest qn (idx + 1) sc' := rfl
    rw [hunfold]
    cases j with
    | zero =>
      show dictGet (askPlayers c s rest qn (idx + 1) sc').1 q = _
      rw [askPlayers_get_notMem c s rest hqr, hsc', dictGet_set_self, hv0]
      norm_num
    | succ j' =>
      have hj' : j' < rest.length := by
        simp only [List.length_cons] at hj
        omega
      have hget := ih hndr j' hj' qn (idx + 1) sc'
      have hmem : rest.get ⟨j', hj'⟩ ∈ rest := List.get_mem rest j' hj'
      have hne : q ≠ rest.get ⟨j', hj'⟩ := fun h => hqr (h ▸ hmem)
      rw [show (q :: rest).get ⟨j' + 1, hj⟩ = rest.get ⟨j', hj'⟩ from rfl]
      rw [hget]
      have h1 : dictGetD sc' (rest.get ⟨j', hj'⟩) [] =
          dictGetD sc (rest.get ⟨j', hj'⟩) [] := by
        simp only [dictGetD, hsc', dictGet_set_ne _ hne]
      have h2 : idx + 1 + j' = idx + (j' + 1) := by omega
      rw [h1, h2]


theorem quizLoop_get_mem (u : String → String) (s : Nat → String) :
    ∀ (items : List QuestionItem) (ps : List String) (p : String), p ∈ ps →
      ∀ (k idx : Nat) (sc : ScoreTable) (inner : Inner),
        dictGet sc p = some inner → dictKeys inner = qKeys k → vals01 inner →
        ∃ inner2,
          dictGet (quizLoop u s items ps (k + 1) idx sc) p = some inner2 ∧
            dictKeys inner2 = qKeys (k + items.length) ∧ vals01 inner2 := by
  intro items
  induction items with
  | nil =>
    intro ps p hp k idx sc inner hget hkeys hvals
    exact ⟨inner, hget, by simpa using hkeys, hvals⟩
  | cons item rest ih =>
    intro ps p hp k idx sc inner hget hkeys hvals
    have hunfold :
        quizLoop u s (item :: rest) ps (k + 1) idx sc =
          quizLoop u s rest ps (k + 1 + 1)
            (askPlayers (u item.correct_answer) s ps (k + 1) idx sc).2
            (askPlayers (u item.correct_answer) s ps (k + 1) idx sc).1 := rfl
    rw [hunfold]
    obtain ⟨v, hv01, hgv⟩ :=
      askPlayers_get_mem (u item.correct_answer) s ps hp (k + 1) idx sc
    have hinner : dictGetD sc p [] = inner := by simp [dictGetD, hget]
    rw [hinner] at hgv
    have hfresh : Nat.repr (k + 1) ∉ dictKeys inner := by
      rw [hkeys]
      intro hmem
      simp only [qKeys, List.mem_map, List.mem_range] at hmem
      obtain ⟨t, ht, hrepr⟩ := hmem
      have := repr_inj hrepr
      omega
    have hkeys1 : dictKeys (dictSet inner (Nat.repr (k + 1)) v) = qKeys (k + 1) := by
      rw [dictKeys_set_of_notMem _ hfresh, hkeys]
      simp only [qKeys]
      rw [List.range_succ, List.map_append]
      rfl
    have hvals1 : vals01 (dictSet inner (Nat.repr (k + 1)) v) :=
      vals01_set _ _ hvals hv01
    obtain ⟨inner2, hg2, hk2, hv2⟩ :=
      ih ps p hp (k + 1)
        ((askPlayers (u item.correct_answer) s ps (k + 1) idx sc).2)
        ((askPlayers (u item.correct_answer) s ps (k + 1) idx sc).1)
        _ hgv hkeys1 hvals1
    refine ⟨inner2, hg2, ?_, hv2⟩
    rw [hk2]
    have harith : k + 1 + rest.length = k + (item :: rest).length := by
      simp only [List.length_cons]
      omega
    rw [harith]

theorem quizLoop_get_point (u : String → String) (s : Nat → String) :
    ∀ (items : List QuestionItem) (ps : List String), ps.Nodup →
      ∀ (j : Nat) (hj : j < ps.length) (k idx : Nat) (sc : ScoreTable) (inner : Inner),
        dictGet sc (ps.get ⟨j, hj⟩) = some inner →
        ∃ inner2,
          dictGet (quizLoop u s items ps (k + 1) idx sc) (ps.get ⟨j, hj⟩) = some inner2 ∧
            (∀ m, 1 ≤ m → m ≤ k →
              dictGet inner2 (Nat.repr m) = dictGet inner (Nat.repr m)) ∧
            (∀ i (hi : i < items.length),
              dictGet inner2 (Nat.repr (k + 1 + i)) =
                some (if pyUpper (s (idx + i * ps.length + j)) =
                    pyUpper (u ((items.get ⟨i, hi⟩).correct_answer))
                  then 1 else 0)) := by
  intro items
  induction items with
  | nil =>
    intro ps hnd j hj k idx sc inner hget
    exact ⟨inner, hget, fun m _ _ => rfl, fun i hi => absurd hi (by simp)⟩
  | cons item rest ih =>
    intro ps hnd j hj k idx sc inner hget
    have hunfold :
        quizLoop u s (item :: rest) ps (k + 1) idx sc =
          quizLoop u s rest ps (k + 1 + 1)
            (askPlayers (u item.correct_answer) s ps (k + 1) idx sc).2
            (askPlayers (u item.correct_answer) s ps (k + 1) idx sc).1 := rfl
    rw [hunfold]
    have hpoint := askPlayers_get_nodup (u item.correct_answer) s ps hnd j hj (k + 1) idx sc
    have hinner : dictGetD sc (ps.get ⟨j, hj⟩) [] = inner := by
      simp only [dictGetD]
      rw [hget]
      rfl
    rw [hinner] at hpoint
    obtain ⟨inner2, hg2, hpres, hpt⟩ :=
      ih ps hnd j hj (k + 1)
        ((askPlayers (u item.correct_answer) s ps (k + 1) idx sc).2)
        ((askPlayers (u item.correct_answer) s ps (k + 1) idx sc).1)
        _ hpoint
    refine ⟨inner2, hg2, ?_, ?_⟩
    · intro m h1 h2
      rw [hpres m h1 (by omega)]
      exact dictGet_set_ne _ (fun h => by have := repr_inj h; omega) _
    · intro i hi
      cases i with
      | zero =>
        have hkey := hpres (k + 1) (by omega) (by omega)
        rw [show k + 1 + 0 = k + 1 from rfl, hkey, dictGet_set_self]
        have harg : idx + 0 * ps.length + j = idx + j := by
          simp
        rw [harg]
        rfl
      | succ i' =>
        have hi' : i' < rest.length := by
          simp only [List.length_cons] at hi
          omega
        have hstep := hpt i' hi'
        rw [askPlayers_snd] at hstep
        have hkeyeq : k + 1 + 1 + i' = k + 1 + (i' + 1) := by omega
        rw [hkeyeq] at hstep
        have hargeq : idx + ps.length + i' * ps.length + j =
            idx + (i' + 1) * ps.length + j := by
          rw [Nat.succ_mul]
          omega
        rw [hargeq] at hstep
        exact hstep

/-! ## Winner-calculation lemmas -/

theorem foldl_max_init_le (l : List Nat) (a : Nat) : a ≤ l.foldl Nat.max a := by
  induction l generalizing a with
  | nil => exact Nat.le_refl a
  | cons x t ih => exact Nat.le_trans (Nat.le_max_left a x) (ih (Nat.max a x))

theorem mem_le_foldl_max (l : List Nat) (x : Nat) :
    ∀ (a : Nat), x ∈ l → x ≤ l.foldl Nat.max a := by
  induction l with
  | nil => intro a hx; simp at hx
  | cons y t ih =>
    intro a hx
    rcases List.mem_cons.mp hx with h | h
    · subst h
      exact Nat.le_trans (Nat.le_max_right a x) (foldl_max_init_le t _)
    · exact ih _ h

theorem le_maxTotal {score : ScoreTable} {pr : String × Inner} (h : pr ∈ score) :
    innerSum pr.2 ≤ maxTotal score :=
  mem_le_foldl_max _ _ 0 (List.mem_map_of_mem _ h)

theorem maxTotal_append (l : List (String × Inner)) (x : String × Inner) :
    maxTotal (l ++ [x]) = Nat.max (maxTotal l) (innerSum x.2) := by
  simp [maxTotal, List.map_append, List.foldl_append]

theorem winnerFold_append (l : List (String × Inner)) (x : String × Inner) :
    winnerFold (l ++ [x]) =
      (if (innerSum x.2 : Int) > (winnerFold l).1
        then ((innerSum x.2 : Int), [x.1])
        else if (innerSum x.2 : Int) = (winnerFold l).1
          then ((winnerFold l).1, (winnerFold l).2 ++ [x.1])
          else winnerFold l) := by
  simp [winnerFold, List.foldl_append]

theorem winnerFold_spec :
    ∀ (score : ScoreTable), score ≠ [] →
      winnerFold score =
        ((maxTotal score : Int),
          (score.filter (fun pr => innerSum pr.2 == maxTotal score)).map Prod.fst) := by
  intro score
  induction score using List.reverseRecOn with
  | nil => intro h; exact absurd rfl h
  | append_singleton l x ih =>
    intro _
    rcases eq_or_ne l [] with hl | hl
    · subst hl
      simp only [List.nil_append]
      have hgt : ((innerSum x.2 : Nat) : Int) > -1 := by
        have := Int.natCast_nonneg (innerSum x.2)
        omega
      have h1 : winnerFold [x] =
          (if (innerSum x.2 : Int) > -1 then ((innerSum x.2 : Int), [x.1])
            else if (innerSum x.2 : Int) = -1 then ((-1 : Int), [x.1])
            else ((-1 : Int), ([] : List String))) := rfl
      rw [h1, if_pos hgt]
      have hmax : maxTotal [x] = innerSum x.2 := by simp [maxTotal]
      rw [hmax]
      simp
    · rw [winnerFold_append, ih hl]
      rw [maxTotal_append]
      rcases Nat.lt_trichotomy (innerSum x.2) (maxTotal l) with hlt | heq | hgt
      · have hmaxl : Nat.max (maxTotal l) (innerSum x.2) = maxTotal l :=
          Nat.max_eq_left hlt.le
        rw [if_neg (by push_cast; omega), if_neg (by push_cast; omega)]
        rw [hmaxl]
        have hfx : List.filter
            (fun pr => innerSum pr.2 == maxTotal l) [x] = [] := by
          simp only [List.filter_cons, List.filter_nil, beq_iff_eq]
          rw [if_neg (by omega)]
        rw [List.filter_append, hfx]
        simp
      · have hmaxl : Nat.max (maxTotal l) (maxTotal l) = maxTotal l :=
          Nat.max_self _
        rw [heq]
        rw [if_neg (by omega), if_pos rfl]
        rw [hmaxl]
        rw [List.filter_append]
        have hfx : List.filter
            (fun pr => innerSum pr.2 == maxTotal l) [x] = [x] := by
          simp [heq]
        rw [hfx]
        simp
      · have hmaxl : Nat.max (maxTotal l) (innerSum x.2) = innerSum x.2 :=
          Nat.max_eq_right hgt.le
        rw [if_pos (by push_cast; omega)]
        rw [hmaxl]
        have hfl : List.filter
            (fun pr => innerSum pr.2 == innerSum x.2) l = [] := by
          rw [List.filter_eq_nil_iff]
          intro pr hpr
          have := le_maxTotal hpr
          simp only [beq_iff_eq]
          omega
        have hfx : List.filter
            (fun pr => innerSum pr.2 == innerSum x.2) [x] = [x] := by
          simp
        rw [List.filter_append, hfl, hfx]
        simp

/-! ## Entry-flow lemmas -/

theorem questionCountLoop_ok_le :
    ∀ (inputs : List String) (bound : Option Int) (v : Int),
      questionCountLoop inputs bound = Except.ok v → v ≤ 50 := by
  intro inputs
  induction inputs with
  | nil =>
    intro bound v h
    exact absurd h (by simp [questionCountLoop])
  | cons line rest ih =>
    intro bound v h
    simp only [questionCountLoop] at h
    rcases hpi : pyInt? line with _ | w
    · rw [hpi] at h
      rcases bound with _ | b
      · simp at h
      · simp only at h
        by_cases hle : b ≤ 50
        · rw [if_pos hle] at h
          cases h
          exact hle
        · rw [if_neg hle] at h
          exact ih _ _ h
    · rw [hpi] at h
      simp only at h
      by_cases hle : w ≤ 50
      · rw [if_pos hle] at h
        cases h
        exact hle
      · rw [if_neg hle] at h
        exact ih _ _ h

/-! ## Claim theorems -/

/-- Claim C1, counterexample to the claim as stated: with correct answer
"Paris" and the single player answering " paris" (correct up to case after
trimming, but with a leading space), the code records 0, although the
trimmed upper-cased input equals the upper-cased correct answer, so the
claim's comparison would record 1. -/
theorem quiz_trim_refuted :
    dictGet (dictGetD (quiz (fun t => t) (fun _ => " paris")
        [⟨"Q", "Paris", ["London"]⟩] ["A"]) "A" []) "1" = some 0 ∧
      pyUpper (pyStrip " paris") = pyUpper ((fun t : String => t) "Paris") := by
  constructor
  · decide
  · decide

/-- Claim C1 (amended): in `quiz`, for every question `i` and player `j`
(players pairwise distinct, as the entry flow guarantees), the recorded
point is 1 if and only if the player's raw input line — NOT trimmed —
upper-cased equals the upper-cased unescaped correct answer, and 0
otherwise; case-insensitivity holds, but an answer differing only in
surrounding whitespace scores 0. -/
theorem quiz_point_upper_eq (u : String → String) (s : Nat → String)
    (items : List QuestionItem) (players : List String) (hnd : players.Nodup)
    (i j : Nat) (hi : i < items.length) (hj : j < players.length) :
    dictGet (dictGetD (quiz u s items players) (players.get ⟨j, hj⟩) [])
        (Nat.repr (i + 1)) =
      some (if pyUpper (s (i * players.length + j)) =
          pyUpper (u ((items.get ⟨i, hi⟩).correct_answer)) then 1 else 0) := by
  have hp : players.get ⟨j, hj⟩ ∈ players := List.get_mem players j hj
  obtain ⟨inner2, hg2, hpres, hpt⟩ :=
    quizLoop_get_point u s items players hnd j hj 0 0 (quizInit players) []
      (quizInit_get hp)
  have hpti := hpt i hi
  have hkey : (0 : Nat) + 1 + i = i + 1 := by omega
  have harg : (0 : Nat) + i * players.length + j = i * players.length + j := by
    omega
  rw [hkey, harg] at hpti
  have hD : dictGetD (quiz u s items players) (players.get ⟨j, hj⟩) [] =
      inner2 := by
    show (dictGet (quizLoop u s items players (0 + 1) 0 (quizInit players))
      (players.get ⟨j, hj⟩)).getD [] = inner2
    rw [hg2]
    rfl
  rw [hD]
  exact hpti

/-- Witness for C1's amended theorem at a concrete run: one question with
correct answer "Paris", one player answering "paris" (case-only
difference), recorded point 1. -/
theorem quiz_point_upper_eq_witness :
    dictGet (dictGetD (quiz (fun t => t) (fun _ => "paris")
        [⟨"Q", "Paris", ["London"]⟩] ["A"]) "A" []) "1" = some 1 := by
  have h := quiz_point_upper_eq (fun t => t) (fun _ => "paris")
    [⟨"Q", "Paris", ["London"]⟩] ["A"] (by decide) 0 0 (by decide) (by decide)
  exact h.trans (by decide)

/-- Claim C2 (code bug): on the very first question-count input being
non-numeric, the caught `ValueError` falls through to
`if no_questions <= 50` with `no_questions` still unassigned, and Python
raises `NameError` — the error is NOT recovered by re-prompting (the
remaining input "10" is never read). -/
theorem questionCount_first_nonnumeric_raises :
    questionCountLoop ["abc", "10"] none = Except.error "NameError" := rfl

/-- Claim C3, counterexample to the claim as stated: the entered value 0
(below the claimed lower bound 1) is accepted by the loop and passed on to
`get_questions`. -/
theorem questionCount_zero_accepted :
    questionCountLoop ["0"] none = Except.ok 0 ∧ ¬((1 : Int) ≤ 0) :=
  ⟨rfl, by decide⟩

/-- Claim C3 (amended): every question count the entry loop passes to
`get_questions` is at most 50; an entered 51 is rejected and re-prompted
(before any network call, since the loop returns before `get_questions`
runs), and 50 is accepted — but there is no lower bound: 0 and negative
values are accepted as well. -/
theorem questionCount_le_fifty :
    (∀ (inputs : List String) (v : Int),
        questionCountLoop inputs none = Except.ok v → v ≤ 50) ∧
      (∀ rest, questionCountLoop ("51" :: rest) none =
        questionCountLoop rest (some 51)) ∧
      (∀ rest, questionCountLoop ("50" :: rest) none = Except.ok 50) :=
  ⟨fun inputs v h => questionCountLoop_ok_le inputs none v h,
    fun _ => rfl, fun _ => rfl⟩

/-- Witness for C3's amended theorem: entering "50" yields 50, which the
theorem bounds by 50. -/
theorem questionCount_le_fifty_witness :
    questionCountLoop ["50"] none = Except.ok 50 ∧ (50 : Int) ≤ 50 :=
  ⟨rfl, questionCount_le_fifty.1 ["50"] 50 rfl⟩

/-- Claim C4: for every non-empty score table, `calculate_winner` totals
each player by summing their point values, and announces exactly the
players whose total equals the maximum total (all ties included, in table
order); if the maximum total is 0 it takes the distinct "no points" branch
instead. -/
theorem calculate_winner_argmax (score : ScoreTable) (h : score ≠ []) :
    calculate_winner score =
      if maxTotal score = 0 then WinnerOutcome.noPoints
      else WinnerOutcome.winners (maxTotal score)
        ((score.filter (fun pr => innerSum pr.2 == maxTotal score)).map
          Prod.fst) := by
  have hw := winnerFold_spec score h
  simp only [calculate_winner, hw]
  by_cases h0 : maxTotal score = 0 <;> simp [h0]

/-- Witness for C4 at a concrete table: A scores 1, B scores 0; only A is
announced, with highest total 1. -/
theorem calculate_winner_argmax_witness :
    calculate_winner [("A", [("1", 1)]), ("B", [("1", 0)])] =
      WinnerOutcome.winners 1 ["A"] := by
  have h := calculate_winner_argmax [("A", [("1", 1)]), ("B", [("1", 0)])]
    (by decide)
  exact h.trans (by decide)

/-- Claim C5, counterexample to the claim as stated: the empty name is NOT
rejected — with no names taken yet, entering the empty string is accepted
and appended (re-prompting would instead have consumed the rest of the
input, which here yields `none`). -/
theorem playerName_empty_accepted :
    playerNamePrompt [""] [] = some ([""], []) ∧
      playerNamePrompt ([] : List String) [] = none :=
  ⟨rfl, rfl⟩

/-- Claim C5 (amended): a proposed player name is accepted and appended to
the player list if and only if it is not already present in the list
(emptiness is NOT checked: an empty name is accepted the first time);
otherwise the same player is re-prompted on the remaining input. -/
theorem playerName_accept_iff_fresh :
    ∀ (name : String) (inputs player_list : List String),
      (name ∉ player_list →
        playerNamePrompt (name :: inputs) player_list =
          some (player_list ++ [name], inputs)) ∧
      (name ∈ player_list →
        playerNamePrompt (name :: inputs) player_list =
          playerNamePrompt inputs player_list) := by
  intro name inputs player_list
  constructor
  · intro h
    simp [playerNamePrompt, h]
  · intro h
    simp [playerNamePrompt, h]

/-- Witness for C5's amended theorem: the fresh name "Ann" is accepted and
appended at once. -/
theorem playerName_accept_iff_fresh_witness :
    playerNamePrompt ["Ann"] [] = some (["Ann"], []) :=
  (playerName_accept_iff_fresh "Ann" [] []).1 (by simp)

/-- Claim C6: for every payload of `n` question records and every player
list, `quiz` maps every player in the list to an inner dictionary whose
key list is exactly `["1", ..., "n"]` (`qKeys n`, the same key set and
insertion order for every player), with every recorded value 0 or 1. -/
theorem quiz_keys_complete (u : String → String) (s : Nat → String)
    (items : List QuestionItem) (players : List String) (p : String)
    (hp : p ∈ players) :
    ∃ inner, dictGet (quiz u s items players) p = some inner ∧
      dictKeys inner = qKeys items.length ∧ vals01 inner := by
  obtain ⟨inner, hg, hk, hv⟩ :=
    quizLoop_get_mem u s items players p hp 0 0 (quizInit players) []
      (quizInit_get hp) (by simp [qKeys, dictKeys])
      (fun kv hkv => absurd hkv (List.not_mem_nil kv))
  refine ⟨inner, hg, ?_, hv⟩
  rw [hk]
  simp

/-- Witness for C6 at a concrete run with one question and one player. -/
theorem quiz_keys_complete_witness :
    ∃ inner,
      dictGet (quiz (fun t => t) (fun _ => "x") [⟨"Q", "Z", ["B"]⟩] ["P"])
          "P" = some inner ∧
        dictKeys inner = qKeys 1 ∧ vals01 inner :=
  quiz_keys_complete (fun t => t) (fun _ => "x") [⟨"Q", "Z", ["B"]⟩] ["P"]
    "P" (by decide)

/-- Claim C7: for every non-empty score table whose players all share the
first player's question-key list, `write_score_to_csv` writes exactly
(players + 1) rows; the header row is 'Name', one 'Question k' column per
question key of the first player in stored order, then 'Total' — so
(questions + 2) columns — and each player row is the player's name, that
player's point values in stored key order, and their sum. -/
theorem write_score_to_csv_shape (first : String × Inner)
    (rest : List (String × Inner))
    (_hreg : ∀ pr ∈ first :: rest, dictKeys pr.2 = dictKeys first.2) :
    ∃ rows, write_score_to_csv (first :: rest) = some rows ∧
      rows.length = (first :: rest).length + 1 ∧
      rows.headD [] =
        ["Name"] ++ (dictKeys first.2).map (fun q_no => "Question " ++ q_no)
          ++ ["Total"] ∧
      (rows.headD []).length = first.2.length + 2 ∧
      rows.tail =
        (first :: rest).map (fun pr =>
          [pr.1] ++ pr.2.map (fun kv => Nat.repr kv.2)
            ++ [Nat.repr (innerSum pr.2)]) := by
  refine ⟨_, rfl, ?_, rfl, ?_, rfl⟩
  · simp [write_score_to_csv]
  · simp only [List.headD_cons, List.length_append, List.length_cons,
      List.length_nil, List.length_map, dictKeys]
    omega

/-- Witness for C7 at a concrete one-player, one-question table. -/
theorem write_score_to_csv_shape_witness :
    ∃ rows, write_score_to_csv [("A", [("1", 1)])] = some rows ∧
      rows.length = 2 ∧
      rows.headD [] = ["Name", "Question 1", "Total"] ∧
      (rows.headD []).length = 3 ∧
      rows.tail = [["A", "1", "1"]] :=
  write_score_to_csv_shape ("A", [("1", 1)]) [] (by decide)

/-- Claim C8: round-trip — writing a non-empty regular score table with
`write_score_to_csv` and parsing the produced rows back yields, for every
player, the same total as the sum of that player's point values in the
original table. -/
theorem write_csv_roundtrip (first : String × Inner)
    (rest : List (String × Inner))
    (_hreg : ∀ pr ∈ first :: rest, dictKeys pr.2 = dictKeys first.2)
    (rows : List (List String))
    (hw : write_score_to_csv (first :: rest) = some rows) :
    csvParseTotals rows =
      (first :: rest).map (fun pr => (pr.1, innerSum pr.2)) := by
  have h2 : (some
      ((["Name"] ++ (dictKeys first.2).map (fun q_no => "Question " ++ q_no)
          ++ ["Total"]) ::
        (first :: rest).map (fun pr =>
          [pr.1] ++ pr.2.map (fun kv => Nat.repr kv.2)
            ++ [Nat.repr (innerSum pr.2)])) : Option (List (List String))) =
      some rows := hw
  have hrows := (Option.some.inj h2).symm
  subst hrows
  simp only [csvParseTotals, List.tail_cons, List.map_map]
  apply List.map_congr_left
  intro pr hpr
  simp only [Function.comp_apply]
  have hlist : [pr.1] ++ pr.2.map (fun kv => Nat.repr kv.2)
      ++ [Nat.repr (innerSum pr.2)] =
      (pr.1 :: pr.2.map (fun kv => Nat.repr kv.2))
        ++ [Nat.repr (innerSum pr.2)] := by
    simp
  rw [hlist, List.getLastD_concat, parseNat_repr]
  rfl

/-- Witness for C8 at a concrete one-player table: the written rows parse
back to total 1 for player A. -/
theorem write_csv_roundtrip_witness :
    csvParseTotals [["Name", "Question 1", "Total"], ["A", "1", "1"]] =
      [("A", 1)] :=
  write_csv_roundtrip ("A", [("1", 1)]) [] (by decide) _ rfl

/-- Claim C9: `write_score_to_csv` is not total at its public interface —
on an empty score table `next(iter(score.values()))` raises
`StopIteration` (modelled as `none`) before the output file is opened, so
no rows at all are produced; with at least one player it always produces
rows. -/
theorem write_score_to_csv_requires_player :
    write_score_to_csv [] = none ∧
      ∀ (first : String × Inner) (rest : List (String × Inner)),
        (write_score_to_csv (first :: rest)).isSome = true :=
  ⟨rfl, fun _ _ => rfl⟩

/-- Claim C10: on an empty score table `calculate_winner` does not take
the "no points" branch — the tracked highest score stays -1, so it prints
the winner-announcement header reporting highest score -1, an empty
winner list, and the congratulations line. -/
theorem calculate_winner_empty_report :
    calculate_winner [] = WinnerOutcome.winners (-1) [] ∧
      winnerOutput (calculate_winner []) =
        ["Player(s) with the highest score (-1):", "Congratulations!"] :=
  ⟨rfl, rfl⟩

end Trivia
